import Mathlib

/-!
Shallow embedding of the hand-rolled dynamic array `Vector<T>` from
`src/Vector.h` of the Pointers-Assignment repository.

The C++ object holds a raw buffer `m_Data` of `m_Capacity` slots, of which
the first `m_Size` are live.  We embed the live elements as a Lean list
`m_Data : List α` (so `m_Size` is its length) together with the capacity
counter `m_Capacity : Nat`; the slots in `[size, capacity)` are
uninitialized in the source and carry no observable value through the
checked interface, so they have no representation here.

Every throwing member is translated to a function returning
`Except String _` carrying the exact message of the `std::runtime_error`
thrown by the source.  Mutating members that can throw return the result
paired with the post-call state; since in the source the check precedes
every write, the state returned on the error branch is the entry state.
Copy and move construction/assignment act on C++ objects, so they are
modelled as functions returning the states of both objects after the
operation; the `this == &other` self-assignment branches of the two
`operator=` overloads are modelled as separate functions, since aliasing
of two distinct Lean values cannot occur.
-/

namespace PtrAsg

/-- State of a `Vector<T>` (src/Vector.h, lines 16-21): the live elements
`m_Data[0..m_Size)` as a list, and the capacity counter `m_Capacity`. -/
structure Vector (α : Type) where
  m_Data : List α
  m_Capacity : Nat
deriving Repr, DecidableEq

namespace Vector

variable {α : Type}

/-- `m_Size` is the number of live elements, i.e. the length of the live
list. -/
def m_Size (v : Vector α) : Nat := v.m_Data.length

/-- Default constructor (line 24): `m_Data = nullptr, m_Capacity = 0,
m_Size = 0`. -/
def mkDefault : Vector α := ⟨[], 0⟩

/-- Capacity constructor (line 40): `m_Data = new T[capacity]`,
`m_Capacity = capacity`, `m_Size = 0`.  The freshly allocated slots are
not live, so the live list is empty. -/
def mkWithCapacity (capacity : Nat) : Vector α := ⟨[], capacity⟩

/-- `Grow()` (lines 302-313): `newCapacity = (m_Capacity == 0) ? 1 :
m_Capacity * 2`; the first `m_Size` elements are copied over in order,
so the live list is unchanged. -/
def Grow (v : Vector α) : Vector α :=
  ⟨v.m_Data, if v.m_Capacity = 0 then 1 else v.m_Capacity * 2⟩

/-- `PushBack(const T&)` (lines 144-150): grow if `m_Size + 1 >
m_Capacity`, then write `value` at index `m_Size` and increment
`m_Size`. -/
def PushBack (v : Vector α) (value : α) : Vector α :=
  let w := if v.m_Size + 1 > v.m_Capacity then v.Grow else v
  ⟨w.m_Data ++ [value], w.m_Capacity⟩

/-- `PushFront(const T&)` (lines 164-175): grow if needed, shift every
live element one slot right, then write `value` at index 0. -/
def PushFront (v : Vector α) (value : α) : Vector α :=
  let w := if v.m_Size + 1 > v.m_Capacity then v.Grow else v
  ⟨value :: w.m_Data, w.m_Capacity⟩

/-- Initializer-list constructor (lines 30-36): delegate to the capacity
constructor with the list's length, then `PushBack` each value in
order. -/
def mkOfList (values : List α) : Vector α :=
  values.foldl PushBack (mkWithCapacity values.length)

/-- `At(size_t)` (lines 124-130): throw when `idx >= m_Size`, otherwise
return `m_Data[idx]`.  The member writes no field, so the vector is
returned unchanged on both branches. -/
def At (v : Vector α) (idx : Nat) : Except String α × Vector α :=
  if h : v.m_Data.length ≤ idx then
    (.error "Vector Error: Index given to At() is out of bounds.", v)
  else
    (.ok (v.m_Data.get ⟨idx, Nat.lt_of_not_le h⟩), v)

/-- `PopBack()` (lines 195-201): throw when `m_Size == 0` (state
untouched); otherwise decrement `m_Size` and return the element that was
last, so the live list loses its last element. -/
def PopBack (v : Vector α) : Except String α × Vector α :=
  match v.m_Data.getLast? with
  | none => (.error "Vector Error: PopBack() called when size is equal to 0.", v)
  | some a => (.ok a, ⟨v.m_Data.dropLast, v.m_Capacity⟩)

/-- `PopFront()` (lines 206-218): throw when `m_Size == 0` (state
untouched); otherwise save `m_Data[0]`, shift the remaining elements one
slot left, decrement `m_Size` and return the saved value. -/
def PopFront (v : Vector α) : Except String α × Vector α :=
  match v.m_Data with
  | [] => (.error "Vector Error: PopFront() called when size is equal to 0.", v)
  | a :: rest => (.ok a, ⟨rest, v.m_Capacity⟩)

/-- `RemoveAt(size_t)` (lines 222-233): throw when `idx >= m_Size`
(state untouched); otherwise shift the elements after `idx` one slot
left and decrement `m_Size`, i.e. erase index `idx` from the live
list. -/
def RemoveAt (v : Vector α) (idx : Nat) : Except String Unit × Vector α :=
  if v.m_Data.length ≤ idx then
    (.error "Vector Error: Index given to RemoveAt() is out of bounds.", v)
  else
    (.ok (), ⟨v.m_Data.eraseIdx idx, v.m_Capacity⟩)

/-- `Back()` (lines 237-243): throw when `m_Size == 0`, otherwise return
`m_Data[m_Size - 1]`.  Writes no field. -/
def Back (v : Vector α) : Except String α × Vector α :=
  match v.m_Data.getLast? with
  | none => (.error "Vector Error: Back() called when size is equal to 0.", v)
  | some a => (.ok a, v)

/-- `Front()` (lines 257-263): throw when `m_Size == 0`, otherwise return
`m_Data[0]`.  Writes no field. -/
def Front (v : Vector α) : Except String α × Vector α :=
  match v.m_Data with
  | [] => (.error "Vector Error: Front() called when size is equal to 0.", v)
  | a :: _ => (.ok a, v)

/-- `Clear()` (lines 277-279): set `m_Size` to 0; the capacity is kept. -/
def Clear (v : Vector α) : Vector α := ⟨[], v.m_Capacity⟩

/-- `Empty()` (lines 283-285): `m_Size == 0`. -/
def Empty (v : Vector α) : Bool := v.m_Size == 0

/-- `Size()` (lines 289-291). -/
def Size (v : Vector α) : Nat := v.m_Size

/-- `Capacity()` (lines 295-297). -/
def Capacity (v : Vector α) : Nat := v.m_Capacity

/-- Copy constructor (lines 47-55): the new object gets the source's
capacity and size and a deep copy of its first `m_Size` elements; the
source is not written.  Returns (new object, source after). -/
def copyCtor (other : Vector α) : Vector α × Vector α :=
  (⟨other.m_Data, other.m_Capacity⟩, other)

/-- Copy assignment, `this != &other` branch (lines 70-82): discard the
old buffer, copy the source's capacity, size and elements; the source is
not written.  Returns (destination after, source after). -/
def copyAssign (_self other : Vector α) : Vector α × Vector α :=
  (⟨other.m_Data, other.m_Capacity⟩, other)

/-- Copy assignment, `this == &other` branch (line 71): return `*this`
unchanged. -/
def copyAssignSelf (self : Vector α) : Vector α := self

/-- Move constructor (lines 59-66): the new object takes the source's
buffer, capacity and size; the source is reset to `nullptr, 0, 0`.
Returns (new object, source after). -/
def moveCtor (other : Vector α) : Vector α × Vector α :=
  (⟨other.m_Data, other.m_Capacity⟩, ⟨[], 0⟩)

/-- Move assignment, `this != &other` branch (lines 86-100): discard the
old buffer, take the source's buffer, capacity and size; the source is
reset to `nullptr, 0, 0`.  Returns (destination after, source after). -/
def moveAssign (_self other : Vector α) : Vector α × Vector α :=
  (⟨other.m_Data, other.m_Capacity⟩, ⟨[], 0⟩)

/-- Move assignment, `this == &other` branch (line 87): return `*this`
unchanged. -/
def moveAssignSelf (self : Vector α) : Vector α := self

/-- Whether an `Except` result is a success. -/
def isOk : Except String β → Bool
  | .ok _ => true
  | .error _ => false

end Vector

/-- The public mutating operations of `Vector`, used to state the
reachability invariant. -/
inductive Op (α : Type) where
  | pushBack (value : α)
  | pushFront (value : α)
  | popBack
  | popFront
  | removeAt (idx : Nat)
  | clear

/-- Apply one public operation to a vector state; for throwing members
this is the post-call state (unchanged when the member throws). -/
def applyOp (v : Vector α) : Op α → Vector α
  | .pushBack a => v.PushBack a
  | .pushFront a => v.PushFront a
  | .popBack => v.PopBack.2
  | .popFront => v.PopFront.2
  | .removeAt i => (v.RemoveAt i).2
  | .clear => v.Clear

/-- States reachable from some constructor of `Vector` by any sequence of
public operations, copies and moves. -/
inductive Reachable : Vector α → Prop
  | mkDefault : Reachable Vector.mkDefault
  | mkWithCapacity (n : Nat) : Reachable (Vector.mkWithCapacity n)
  | mkOfList (xs : List α) : Reachable (Vector.mkOfList xs)
  | copyNew (v : Vector α) : Reachable v → Reachable (Vector.copyCtor v).1
  | copySrc (v : Vector α) : Reachable v → Reachable (Vector.copyCtor v).2
  | moveNew (v : Vector α) : Reachable v → Reachable (Vector.moveCtor v).1
  | moveSrc (v : Vector α) : Reachable v → Reachable (Vector.moveCtor v).2
  | step (v : Vector α) (op : Op α) : Reachable v → Reachable (applyOp v op)

/-- Fold a sequence of `PushBack`s over a vector. -/
def pushAll (v : Vector α) (xs : List α) : Vector α := xs.foldl Vector.PushBack v

namespace Vector

theorem Grow_m_Data (v : Vector α) : v.Grow.m_Data = v.m_Data := rfl

theorem PushBack_m_Data (v : Vector α) (a : α) :
    (v.PushBack a).m_Data = v.m_Data ++ [a] := by
  simp only [PushBack]
  split <;> rfl

theorem PushFront_m_Data (v : Vector α) (a : α) :
    (v.PushFront a).m_Data = a :: v.m_Data := by
  simp only [PushFront]
  split <;> rfl

theorem PushBack_m_Capacity_of_full (v : Vector α) (a : α)
    (h : v.m_Size + 1 > v.m_Capacity) :
    (v.PushBack a).m_Capacity = max 1 (v.m_Capacity * 2) := by
  simp only [PushBack, if_pos h, Grow]
  split <;> omega

theorem PushFront_m_Capacity_of_full (v : Vector α) (a : α)
    (h : v.m_Size + 1 > v.m_Capacity) :
    (v.PushFront a).m_Capacity = max 1 (v.m_Capacity * 2) := by
  simp only [PushFront, if_pos h, Grow]
  split <;> omega

theorem At_eq_ok (v : Vector α) (i : Nat) (h : i < v.m_Data.length) :
    (v.At i).1 = .ok (v.m_Data.get ⟨i, h⟩) := by
  rw [At, dif_neg (by omega)]

end Vector

theorem pushAll_m_Data (v : Vector α) (xs : List α) :
    (pushAll v xs).m_Data = v.m_Data ++ xs := by
  induction xs generalizing v with
  | nil => simp [pushAll]
  | cons a xs ih =>
    show (pushAll (v.PushBack a) xs).m_Data = v.m_Data ++ a :: xs
    rw [ih, Vector.PushBack_m_Data]
    simp

/-- C1: whenever an append (`PushBack` or `PushFront`) is called in a state
with `size + 1 > capacity`, the resulting capacity is `max 1 (capacity * 2)`
(1 when the old capacity was 0, otherwise double), and the previous `size`
elements survive in order: after `PushBack` they are the first `size`
entries, after `PushFront` they are the entries following the new head. -/
theorem growth_on_full (v : Vector α) (x : α) (h : v.m_Size + 1 > v.m_Capacity) :
    (v.PushBack x).m_Capacity = max 1 (v.m_Capacity * 2) ∧
    (v.PushFront x).m_Capacity = max 1 (v.m_Capacity * 2) ∧
    (v.PushBack x).m_Data.take v.m_Size = v.m_Data ∧
    (v.PushFront x).m_Data.drop 1 = v.m_Data := by
  refine ⟨v.PushBack_m_Capacity_of_full x h, v.PushFront_m_Capacity_of_full x h, ?_, ?_⟩
  · rw [Vector.PushBack_m_Data, Vector.m_Size, List.take_left]
  · rw [Vector.PushFront_m_Data, List.drop_one, List.tail_cons]

/-- Witness for C1 at the full one-element vector `⟨[5], 1⟩` and `x = 7`. -/
theorem growth_on_full_witness :
    (⟨[5], 1⟩ : Vector Nat).m_Size + 1 > (⟨[5], 1⟩ : Vector Nat).m_Capacity ∧
    (((⟨[5], 1⟩ : Vector Nat).PushBack 7).m_Capacity = max 1 ((⟨[5], 1⟩ : Vector Nat).m_Capacity * 2) ∧
     ((⟨[5], 1⟩ : Vector Nat).PushFront 7).m_Capacity = max 1 ((⟨[5], 1⟩ : Vector Nat).m_Capacity * 2) ∧
     ((⟨[5], 1⟩ : Vector Nat).PushBack 7).m_Data.take (⟨[5], 1⟩ : Vector Nat).m_Size = (⟨[5], 1⟩ : Vector Nat).m_Data ∧
     ((⟨[5], 1⟩ : Vector Nat).PushFront 7).m_Data.drop 1 = (⟨[5], 1⟩ : Vector Nat).m_Data) :=
  ⟨by decide, growth_on_full ⟨[5], 1⟩ 7 (by decide)⟩

/-- C2: pushing any finite sequence onto the empty vector with `PushBack`
yields size equal to the number of pushes, and `At i` returns the i-th
pushed value for every `i < size`. -/
theorem pushBack_sequence (xs : List α) :
    (pushAll Vector.mkDefault xs).Size = xs.length ∧
    ∀ i, ∀ h : i < xs.length,
      ((pushAll Vector.mkDefault xs).At i).1 = .ok (xs.get ⟨i, h⟩) := by
  have hd : (pushAll Vector.mkDefault xs).m_Data = xs := by
    rw [pushAll_m_Data]; rfl
  constructor
  · rw [Vector.Size, Vector.m_Size, hd]
  · intro i h
    rw [Vector.At_eq_ok _ i (by rw [hd]; omega)]
    exact congrArg Except.ok (List.get_of_eq hd ⟨i, by rw [hd]; exact h⟩)

/-- Witness for C2 at the sequence `[3, 4, 5]` and index 1. -/
theorem pushBack_sequence_witness :
    (pushAll Vector.mkDefault [3, 4, 5]).Size = 3 ∧
    ((pushAll Vector.mkDefault [3, 4, 5]).At 1).1 = .ok ([3, 4, 5].get ⟨1, by decide⟩) :=
  ⟨(pushBack_sequence [3, 4, 5]).1, (pushBack_sequence [3, 4, 5]).2 1 (by decide)⟩

/-- C3: `At(i)` and `RemoveAt(i)` fail exactly when `i >= size` (never
silently clamped), and `PopBack`, `PopFront`, `Front`, `Back` fail exactly
when `size == 0`; on in-range / non-empty inputs none of them fails. -/
theorem error_exactness (v : Vector α) (i : Nat) :
    (Vector.isOk (v.At i).1 = true ↔ i < v.Size) ∧
    (Vector.isOk (v.RemoveAt i).1 = true ↔ i < v.Size) ∧
    (Vector.isOk v.PopBack.1 = true ↔ v.Size ≠ 0) ∧
    (Vector.isOk v.PopFront.1 = true ↔ v.Size ≠ 0) ∧
    (Vector.isOk v.Front.1 = true ↔ v.Size ≠ 0) ∧
    (Vector.isOk v.Back.1 = true ↔ v.Size ≠ 0) := by
  refine ⟨?_, ?_, ?_, ?_, ?_, ?_⟩
  · rw [Vector.At]
    split <;> simp_all [Vector.isOk, Vector.Size, Vector.m_Size]
    omega
  · rw [Vector.RemoveAt]
    split <;> simp_all [Vector.isOk, Vector.Size, Vector.m_Size]
  all_goals obtain ⟨data, cap⟩ := v
  · cases data with
    | nil => simp [Vector.PopBack, Vector.isOk, Vector.Size, Vector.m_Size]
    | cons a l => exact iff_of_true rfl (by simp [Vector.Size, Vector.m_Size])
  · cases data <;> simp [Vector.PopFront, Vector.isOk, Vector.Size, Vector.m_Size]
  · cases data <;> simp [Vector.Front, Vector.isOk, Vector.Size, Vector.m_Size]
  · cases data with
    | nil => simp [Vector.Back, Vector.isOk, Vector.Size, Vector.m_Size]
    | cons a l => exact iff_of_true rfl (by simp [Vector.Size, Vector.m_Size])

/-- C4: after a move (construction or assignment) the source is empty with
size 0 and capacity 0, and the destination holds exactly the source's
former size, capacity, and elements in order; move-assignment onto itself
takes the `this == &other` branch and leaves the vector unchanged. -/
theorem move_semantics (a b : Vector α) :
    (Vector.moveCtor a).2.Size = 0 ∧ (Vector.moveCtor a).2.Capacity = 0 ∧
    (Vector.moveCtor a).1.Size = a.Size ∧
    (Vector.moveCtor a).1.Capacity = a.Capacity ∧
    (Vector.moveCtor a).1.m_Data = a.m_Data ∧
    (Vector.moveAssign b a).2.Size = 0 ∧ (Vector.moveAssign b a).2.Capacity = 0 ∧
    (Vector.moveAssign b a).1.Size = a.Size ∧
    (Vector.moveAssign b a).1.Capacity = a.Capacity ∧
    (Vector.moveAssign b a).1.m_Data = a.m_Data ∧
    Vector.moveAssignSelf a = a :=
  ⟨rfl, rfl, rfl, rfl, rfl, rfl, rfl, rfl, rfl, rfl, rfl⟩

/-- C5: a copy (construction or assignment) has the source's capacity,
size, and element-wise equal contents; the source object is returned
unmodified by the copy, a subsequent `PushBack` on the copy produces the
copy's elements plus the new one while the original value `a` is untouched
(copies never share storage in this model, mirroring the element-wise deep
copy of the source), and self-copy-assignment takes the `this == &other`
branch and is a no-op. -/
theorem copy_semantics (a b : Vector α) (x : α) :
    (Vector.copyCtor a).1.Capacity = a.Capacity ∧
    (Vector.copyCtor a).1.Size = a.Size ∧
    (Vector.copyCtor a).1.m_Data = a.m_Data ∧
    (Vector.copyCtor a).2 = a ∧
    (Vector.copyAssign b a).1.Capacity = a.Capacity ∧
    (Vector.copyAssign b a).1.Size = a.Size ∧
    (Vector.copyAssign b a).1.m_Data = a.m_Data ∧
    (Vector.copyAssign b a).2 = a ∧
    ((Vector.copyCtor a).1.PushBack x).m_Data = a.m_Data ++ [x] ∧
    Vector.copyAssignSelf a = a :=
  ⟨rfl, rfl, rfl, rfl, rfl, rfl, rfl, rfl, Vector.PushBack_m_Data _ x, rfl⟩

/-- C9: failure is atomic: whenever `At`, `RemoveAt`, `PopBack`,
`PopFront`, `Front` or `Back` fails, the post-call state equals the
pre-call state (size, capacity and all stored elements unchanged). -/
theorem failure_atomic (v : Vector α) (i : Nat) :
    (Vector.isOk (v.At i).1 = false → (v.At i).2 = v) ∧
    (Vector.isOk (v.RemoveAt i).1 = false → (v.RemoveAt i).2 = v) ∧
    (Vector.isOk v.PopBack.1 = false → v.PopBack.2 = v) ∧
    (Vector.isOk v.PopFront.1 = false → v.PopFront.2 = v) ∧
    (Vector.isOk v.Front.1 = false → v.Front.2 = v) ∧
    (Vector.isOk v.Back.1 = false → v.Back.2 = v) := by
  obtain ⟨data, cap⟩ := v
  refine ⟨?_, ?_, ?_, ?_, ?_, ?_⟩
  · rw [Vector.At]; split <;> intro hfail <;> rfl
  · rw [Vector.RemoveAt]
    split
    · intro hfail; rfl
    · intro hfail; simp [Vector.isOk] at hfail
  · cases data with
    | nil => intro hfail; rfl
    | cons a l => intro hfail; exact Bool.noConfusion hfail
  · cases data <;> intro hfail <;> simp_all [Vector.PopFront, Vector.isOk]
  · cases data <;> intro hfail <;> simp_all [Vector.Front, Vector.isOk]
  · cases data with
    | nil => intro hfail; rfl
    | cons a l => intro hfail; exact Bool.noConfusion hfail

/-- Witness for C9: on the empty default vector, `RemoveAt 0` fails and
leaves the state unchanged. -/
theorem failure_atomic_witness :
    ((Vector.mkDefault : Vector Nat).RemoveAt 0).2 = Vector.mkDefault :=
  (failure_atomic (Vector.mkDefault : Vector Nat) 0).2.1 (by decide)

/-- C10: the reserved-capacity constructor yields size 0 and capacity `n`,
and bounds-checked access is governed by size, not capacity: `At i` on the
fresh vector fails for every index `i`. -/
theorem reserved_capacity_ctor (n i : Nat) :
    (Vector.mkWithCapacity n : Vector α).Size = 0 ∧
    (Vector.mkWithCapacity n : Vector α).Capacity = n ∧
    Vector.isOk ((Vector.mkWithCapacity n : Vector α).At i).1 = false := by
  refine ⟨rfl, rfl, ?_⟩
  rw [Vector.At,
    dif_pos (show (Vector.mkWithCapacity n : Vector α).m_Data.length ≤ i from Nat.zero_le i)]
  rfl

theorem PushBack_WF (v : Vector α) (a : α) (h : v.m_Size ≤ v.m_Capacity) :
    (v.PushBack a).m_Size ≤ (v.PushBack a).m_Capacity := by
  have hcap : (v.PushBack a).m_Capacity =
      if v.m_Size + 1 > v.m_Capacity then
        (if v.m_Capacity = 0 then 1 else v.m_Capacity * 2)
      else v.m_Capacity := by
    simp only [Vector.PushBack, Vector.Grow]
    split <;> rfl
  have hsz : (v.PushBack a).m_Size = v.m_Size + 1 := by
    simp [Vector.m_Size, Vector.PushBack_m_Data]
  rw [hcap, hsz]
  split <;> [skip; omega]
  split <;> omega

theorem PushFront_WF (v : Vector α) (a : α) (h : v.m_Size ≤ v.m_Capacity) :
    (v.PushFront a).m_Size ≤ (v.PushFront a).m_Capacity := by
  have hcap : (v.PushFront a).m_Capacity =
      if v.m_Size + 1 > v.m_Capacity then
        (if v.m_Capacity = 0 then 1 else v.m_Capacity * 2)
      else v.m_Capacity := by
    simp only [Vector.PushFront, Vector.Grow]
    split <;> rfl
  have hsz : (v.PushFront a).m_Size = v.m_Size + 1 := by
    simp [Vector.m_Size, Vector.PushFront_m_Data]
  rw [hcap, hsz]
  split <;> [skip; omega]
  split <;> omega

theorem applyOp_WF (v : Vector α) (op : Op α) (h : v.m_Size ≤ v.m_Capacity) :
    (applyOp v op).m_Size ≤ (applyOp v op).m_Capacity := by
  cases op with
  | pushBack a => exact PushBack_WF v a h
  | pushFront a => exact PushFront_WF v a h
  | popBack =>
    show v.PopBack.2.m_Size ≤ v.PopBack.2.m_Capacity
    obtain ⟨data, cap⟩ := v
    cases data with
    | nil => exact h
    | cons b l =>
      change (b :: l).length ≤ cap at h
      change ((b :: l).dropLast).length ≤ cap
      have hdl := List.length_dropLast (b :: l)
      omega
  | popFront =>
    show v.PopFront.2.m_Size ≤ v.PopFront.2.m_Capacity
    obtain ⟨data, cap⟩ := v
    cases data with
    | nil => exact h
    | cons b l =>
      change (b :: l).length ≤ cap at h
      change l.length ≤ cap
      simp at h
      omega
  | removeAt i =>
    show (v.RemoveAt i).2.m_Size ≤ (v.RemoveAt i).2.m_Capacity
    rw [Vector.RemoveAt]
    split
    · exact h
    · next hin =>
      simp only [Vector.m_Size, Vector.m_Capacity] at h ⊢
      rw [List.length_eraseIdx_of_lt (by omega)]
      omega
  | clear => exact Nat.zero_le _

theorem pushAll_WF (xs : List α) (v : Vector α) (h : v.m_Size ≤ v.m_Capacity) :
    (pushAll v xs).m_Size ≤ (pushAll v xs).m_Capacity := by
  induction xs generalizing v with
  | nil => exact h
  | cons a xs ih => exact ih (v.PushBack a) (PushBack_WF v a h)

theorem mkOfList_WF (xs : List α) :
    (Vector.mkOfList xs).m_Size ≤ (Vector.mkOfList xs).m_Capacity :=
  pushAll_WF xs (Vector.mkWithCapacity xs.length) (Nat.zero_le _)

/-- C6: `size <= capacity` holds in every state reachable from any
constructor by any sequence of the public operations, copies and moves:
each of them preserves the invariant. -/
theorem size_le_capacity (v : Vector α) (h : Reachable v) :
    v.m_Size ≤ v.m_Capacity := by
  induction h with
  | mkDefault => exact Nat.le_refl 0
  | mkWithCapacity n => exact Nat.zero_le n
  | mkOfList xs => exact mkOfList_WF xs
  | copyNew w hw ih => exact ih
  | copySrc w hw ih => exact ih
  | moveNew w hw ih => exact ih
  | moveSrc w hw ih => exact Nat.le_refl 0
  | step w op hw ih => exact applyOp_WF w op ih

/-- Witness for C6 at a state reached from the initializer-list
constructor by one `PushBack` step. -/
theorem size_le_capacity_witness :
    (applyOp (Vector.mkOfList [1, 2]) (Op.pushBack 3)).m_Size ≤
      (applyOp (Vector.mkOfList [1, 2]) (Op.pushBack 3)).m_Capacity :=
  size_le_capacity _ (Reachable.step _ _ (Reachable.mkOfList [1, 2]))

/-- C7: on a vector holding exactly one element, `PushFront x` followed by
`PopFront` returns `x` and leaves the size (1) and the sole element
exactly as they were before the two calls. -/
theorem pushFront_popFront_roundtrip (v : Vector α) (x : α) (h : v.Size = 1) :
    (v.PushFront x).PopFront.1 = .ok x ∧
    (v.PushFront x).PopFront.2.Size = 1 ∧
    (v.PushFront x).PopFront.2.m_Data = v.m_Data := by
  have hd := Vector.PushFront_m_Data v x
  rcases hw : v.PushFront x with ⟨d, c⟩
  rw [hw] at hd
  change d = x :: v.m_Data at hd
  subst hd
  exact ⟨rfl, h, rfl⟩

/-- Witness for C7 on the one-element vector `⟨[9], 1⟩` with `x = 4`. -/
theorem pushFront_popFront_roundtrip_witness :
    (⟨[9], 1⟩ : Vector Nat).Size = 1 ∧
    (((⟨[9], 1⟩ : Vector Nat).PushFront 4).PopFront.1 = .ok 4 ∧
     ((⟨[9], 1⟩ : Vector Nat).PushFront 4).PopFront.2.Size = 1 ∧
     ((⟨[9], 1⟩ : Vector Nat).PushFront 4).PopFront.2.m_Data =
       (⟨[9], 1⟩ : Vector Nat).m_Data) :=
  ⟨rfl, pushFront_popFront_roundtrip ⟨[9], 1⟩ 4 rfl⟩

/-- C8: the concrete scenario from the spec: starting empty, three
`PushBack`s give size 3 with `At 0 = 10` and `At 2 = 30`; `PushFront 5`
gives size 4 with `At 0 = 5` and `At 3 = 30`; `RemoveAt 1` gives size 3
and contents `[5, 20, 30]`; then `PopBack` returns 30 and size becomes
2. -/
theorem concrete_scenario :
    ((((Vector.mkDefault : Vector Nat).PushBack 10).PushBack 20).PushBack 30).Size = 3 ∧
    (((((Vector.mkDefault : Vector Nat).PushBack 10).PushBack 20).PushBack 30).At 0).1 = .ok 10 ∧
    (((((Vector.mkDefault : Vector Nat).PushBack 10).PushBack 20).PushBack 30).At 2).1 = .ok 30 ∧
    (((((Vector.mkDefault : Vector Nat).PushBack 10).PushBack 20).PushBack 30).PushFront 5).Size = 4 ∧
    ((((((Vector.mkDefault : Vector Nat).PushBack 10).PushBack 20).PushBack 30).PushFront 5).At 0).1 = .ok 5 ∧
    ((((((Vector.mkDefault : Vector Nat).PushBack 10).PushBack 20).PushBack 30).PushFront 5).At 3).1 = .ok 30 ∧
    ((((((Vector.mkDefault : Vector Nat).PushBack 10).PushBack 20).PushBack 30).PushFront 5).RemoveAt 1).2.Size = 3 ∧
    ((((((Vector.mkDefault : Vector Nat).PushBack 10).PushBack 20).PushBack 30).PushFront 5).RemoveAt 1).2.m_Data = [5, 20, 30] ∧
    ((((((Vector.mkDefault : Vector Nat).PushBack 10).PushBack 20).PushBack 30).PushFront 5).RemoveAt 1).2.PopBack.1 = .ok 30 ∧
    ((((((Vector.mkDefault : Vector Nat).PushBack 10).PushBack 20).PushBack 30).PushFront 5).RemoveAt 1).2.PopBack.2.Size = 2 :=
  ⟨rfl, rfl, rfl, rfl, rfl, rfl, rfl, rfl, rfl, rfl⟩

end PtrAsg
